import Mathlib

/-!
Verification of the OXRS Room8266 library core: the recursive JSON merge
(`_mergeJson`), schema composition (`_getCommandSchemaJson`), the MQTT
config/command routing (`_mqttConfig`, `_mqttCommand`, `_mqttCallback`),
publish gating (`publishStatus`, `publishTelemetry`) and the LED
connectivity state machine (`_updateLed`, `_ledRx`, `_ledTx`).

JSON documents are modelled by the inductive type `Json`; ArduinoJson
truthiness (`as<bool>`) is modelled by `truthy`, member access by
`getMember` and member write (`getOrAddMember` followed by `set`) by
`setMember`.
-/

/-- A JSON tree as stored by ArduinoJson: null, booleans, numbers,
strings, arrays and objects (association lists of members). -/
inductive Json where
  | null : Json
  | bool : Bool → Json
  | num : Int → Json
  | str : String → Json
  | arr : List Json → Json
  | obj : List (String × Json) → Json

/-- ArduinoJson `as<bool>` coercion (`VariantData::asBoolean`): null and
false and zero are false, everything else (strings, arrays, objects,
non-zero numbers) is true.  `if (dst[key])` in the source evaluates this
on the member (null, hence false, when the member is absent). -/
def truthy : Json → Bool
  | .null => false
  | .bool b => b
  | .num n => n != 0
  | .str _ => true
  | .arr _ => true
  | .obj _ => true

/-- Is the value a JSON object. -/
def isObj : Json → Bool
  | .obj _ => true
  | _ => false

/-- Is the value a JSON string. -/
def isStr : Json → Bool
  | .str _ => true
  | _ => false

/-- First member of the association list with the given key. -/
def objLookup : List (String × Json) → String → Option Json
  | [], _ => none
  | (k, v) :: rest, key => if k = key then some v else objLookup rest key

/-- Replace the value of the first member with the given key, keeping its
position; append a new member when the key is absent.  This is how
ArduinoJson `getOrAddMember` behaves on an object. -/
def objSet : List (String × Json) → String → Json → List (String × Json)
  | [], key, v => [(key, v)]
  | (k, w) :: rest, key, v =>
      if k = key then (k, v) :: rest else (k, w) :: objSet rest key v

/-- Reading `dst[key]`: null for a missing member and for any non-object. -/
def getMember : Json → String → Json
  | .obj kvs, key => (objLookup kvs key).getD .null
  | _, _ => .null

/-- Writing `dst[key] = v` (ArduinoJson `getOrAddMember` then `set`):
a null document becomes a one-member object, an object gets the member
replaced or appended, any other value is left unchanged because
`getOrAddMember` fails on non-objects. -/
def setMember : Json → String → Json → Json
  | .null, key, v => .obj [(key, v)]
  | .obj kvs, key, v => .obj (objSet kvs key v)
  | d, _, _ => d

/-- ArduinoJson `containsKey`. -/
def containsKeyJ : Json → String → Bool
  | .obj kvs, key => kvs.any (fun kv => kv.1 == key)
  | _, _ => false

/-- The member list of an object, empty for any other value. -/
def objList : Json → List (String × Json)
  | .obj kvs => kvs
  | _ => []

mutual
/-- Shallow embedding of `_mergeJson(dst, src)` from OXRS_Room8266.cpp:
when `src` is an object its members are folded into `dst` one by one;
otherwise `dst.set(src)` replaces `dst` wholesale. -/
def mergeJson (dst : Json) (src : Json) : Json :=
  match src with
  | .obj kvs => mergeMembers dst kvs
  | _ => src

/-- The member loop of `_mergeJson`: for each pair, if `dst[key]` is
truthy the merge recurses into the member, otherwise `dst[key]` is
assigned the source value. -/
def mergeMembers (dst : Json) (kvs : List (String × Json)) : Json :=
  match kvs with
  | [] => dst
  | (k, v) :: rest =>
      let cur := getMember dst k
      if truthy cur then mergeMembers (setMember dst k (mergeJson cur v)) rest
      else mergeMembers (setMember dst k v) rest
end

/-- The value taken by member `key` after one step of the member loop of
`_mergeJson`, in terms of the old member value `cur` and the source value
`v`. -/
def mergeKeyVal (cur v : Json) : Json :=
  if truthy cur then mergeJson cur v else v

/-- ArduinoJson `isNull`. -/
def isNull : Json → Bool
  | .null => true
  | _ => false

/-- No two members of the association list share a key. -/
def noDupKeys : List (String × Json) → Bool
  | [] => true
  | (k, _) :: rest => !(rest.any (fun kv => kv.1 == k)) && noDupKeys rest

mutual
/-- A well-formed document: every object in the tree has pairwise
distinct member keys (the data model requires keys to be unique within
an object). -/
def wfJson : Json → Bool
  | .obj kvs => noDupKeys kvs && wfMembers kvs
  | _ => true

/-- All member values of the list are well-formed documents. -/
def wfMembers : List (String × Json) → Bool
  | [] => true
  | (_, v) :: rest => wfJson v && wfMembers rest
end

/- ----------------------------------------------------------------- -/
/- LED connectivity state machine (`_ledRx`, `_ledTx`, `_updateLed`)  -/
/- ----------------------------------------------------------------- -/

/-- An RGBW pixel value as passed to `_ledRGBW`. -/
structure RGBW where
  r : Nat
  g : Nat
  b : Nat
  w : Nat
deriving DecidableEq

/-- The mutable LED state of the library: the activity timestamp
`_ledOnMillis` (0 encodes no active pulse) and the currently shown
pixel colour. -/
structure LedState where
  ledOnMillis : Nat
  color : RGBW
deriving DecidableEq

def ledOff : RGBW := ⟨0, 0, 0, 0⟩

/-- Yellow, shown by `_ledRx` for inbound activity. -/
def ledYellow : RGBW := ⟨255, 255, 0, 0⟩

/-- Orange, shown by `_ledTx` for outbound activity. -/
def ledOrange : RGBW := ⟨255, 100, 0, 0⟩

/-- Red, steady state with no network. -/
def ledRed : RGBW := ⟨50, 0, 0, 0⟩

/-- Blue, steady state with network but no MQTT connection. -/
def ledBlue : RGBW := ⟨0, 0, 50, 0⟩

/-- Green, steady state with network and MQTT both up. -/
def ledGreen : RGBW := ⟨0, 50, 0, 0⟩

/-- `_ledRx()`: show yellow and stamp `_ledOnMillis` with the current
`millis()` value. -/
def ledRx (now : Nat) (_s : LedState) : LedState := ⟨now, ledYellow⟩

/-- `_ledTx()`: show orange and stamp `_ledOnMillis` with the current
`millis()` value. -/
def ledTx (now : Nat) (_s : LedState) : LedState := ⟨now, ledOrange⟩

/-- The expression `millis() - _ledOnMillis` on 32-bit unsigned
arithmetic, for `now` and `start` below `2 ^ 32`. -/
def elapsed32 (now start : Nat) : Nat := (now + 2 ^ 32 - start) % 2 ^ 32

/-- Shallow embedding of `_updateLed()`, one evaluation tick: while
`_ledOnMillis` is non-zero only the timeout is checked (the LED is
blanked and the stamp cleared once the elapsed time exceeds the
timeout); otherwise the steady colour is computed from the network and
MQTT connectivity flags. -/
def updateLed (timeout now : Nat) (networkConnected mqttConnected : Bool)
    (s : LedState) : LedState :=
  if s.ledOnMillis ≠ 0 then
    if elapsed32 now s.ledOnMillis > timeout then ⟨0, ledOff⟩ else s
  else
    if !networkConnected then { s with color := ledRed }
    else if !mqttConnected then { s with color := ledBlue }
    else { s with color := ledGreen }

/-- The discrete connectivity states of the spec. -/
inductive ConnState where
  | NoNetwork : ConnState
  | NetworkNoBus : ConnState
  | Connected : ConnState
  | Activity : ConnState
deriving DecidableEq

/-- Classify a pixel colour as the connectivity state it encodes. -/
def colorState (c : RGBW) : Option ConnState :=
  if c = ledRed then some .NoNetwork
  else if c = ledBlue then some .NetworkNoBus
  else if c = ledGreen then some .Connected
  else if c = ledYellow ∨ c = ledOrange then some .Activity
  else none

/-- The steady-state table of the spec: network down gives NoNetwork,
network up without bus gives NetworkNoBus, both up give Connected. -/
def steadyState (networkConnected mqttConnected : Bool) : ConnState :=
  if !networkConnected then .NoNetwork
  else if !mqttConnected then .NetworkNoBus
  else .Connected

/- ----------------------------------------------------------------- -/
/- Publish gating (`publishStatus`, `publishTelemetry`)               -/
/- ----------------------------------------------------------------- -/

/-- Shallow embedding of `OXRS_Room8266::publishStatus`: returns false
at once when the network is down; otherwise the underlying MQTT publish
runs (its result is the free input `publishResult`) and `_ledTx` fires
exactly on success.  Returns the boolean result and the LED state. -/
def publishStatus (networkConnected publishResult : Bool) (now : Nat)
    (s : LedState) : Bool × LedState :=
  if !networkConnected then (false, s)
  else (publishResult, if publishResult then ledTx now s else s)

/-- Shallow embedding of `OXRS_Room8266::publishTelemetry`, identical in
shape to `publishStatus`. -/
def publishTelemetry (networkConnected publishResult : Bool) (now : Nat)
    (s : LedState) : Bool × LedState :=
  if !networkConnected then (false, s)
  else (publishResult, if publishResult then ledTx now s else s)

/- ----------------------------------------------------------------- -/
/- MQTT config/command routing                                        -/
/- ----------------------------------------------------------------- -/

/-- The platform-reserved state written by `_mqttConfig`. -/
structure PlatformState where
  hassDiscoveryEnabled : Bool
  hassDiscoveryTopic : String
deriving DecidableEq

/-- The C `strcpy` source `json[key].as<const char*>()`: the string
itself for a JSON string.  For any other value ArduinoJson yields a null
pointer and the copy in the C code is undefined; that region is modelled
as the empty string and excluded by hypothesis in the theorems. -/
def jsonAsCStr : Json → String
  | .str s => s
  | _ => ""

/-- Shallow embedding of `_mqttConfig`: update `g_hassDiscoveryEnabled`
and the discovery topic prefix from the reserved keys when present, then
pass the original document to the firmware callback when one is
registered (`none` means no handler, a no-op). -/
def mqttConfig (st : PlatformState) (hasHandler : Bool) (doc : Json) :
    PlatformState × Option Json :=
  let st1 := if containsKeyJ doc "hassDiscoveryEnabled"
             then { st with hassDiscoveryEnabled := truthy (getMember doc "hassDiscoveryEnabled") }
             else st
  let st2 := if containsKeyJ doc "hassDiscoveryTopicPrefix"
             then { st1 with hassDiscoveryTopic := jsonAsCStr (getMember doc "hassDiscoveryTopicPrefix") }
             else st1
  (st2, if hasHandler then some doc else none)

/-- Observable events of `_mqttCommand`, in program order. -/
inductive CmdEvent where
  | restartEffect : CmdEvent
  | forwarded : Json → CmdEvent

/-- Shallow embedding of `_mqttCommand` as its event trace: the
`ESP.restart()` effect fires when the document has a truthy `restart`
member, and afterwards the original document is passed to the firmware
callback when one is registered. -/
def mqttCommand (hasHandler : Bool) (doc : Json) : List CmdEvent :=
  (if containsKeyJ doc "restart" && truthy (getMember doc "restart")
   then [.restartEffect] else [])
  ++ (if hasHandler then [.forwarded doc] else [])

/-- The classification codes returned by the external `OXRS_MQTT`
receive call (an out-of-scope collaborator, used only at its
interface). -/
inductive ReceiveStatus where
  | ok : ReceiveStatus
  | zeroLength : ReceiveStatus
  | jsonError : ReceiveStatus
  | noConfigHandler : ReceiveStatus
  | noCommandHandler : ReceiveStatus
deriving DecidableEq

/-- Shallow embedding of `_mqttCallback`: `_ledRx()` fires first, then
the payload is handed to the external receive call whose classification
(`receive payload`) is returned for logging. -/
def mqttCallback (receive : List Nat → ReceiveStatus) (payload : List Nat)
    (now : Nat) (s : LedState) : LedState × ReceiveStatus :=
  let s1 := ledRx now s
  (s1, receive payload)

/- ----------------------------------------------------------------- -/
/- Command schema composition (`_getCommandSchemaJson`)               -/
/- ----------------------------------------------------------------- -/

/-- The reserved command entry written by `_getCommandSchemaJson` after
the firmware fragment is merged: `createNestedObject("restart")`
replaces any member named `restart` with a fresh object which then gets
`title` and `type`. -/
def restartSchemaEntry : Json :=
  .obj [("title", .str "Restart"), ("type", .str "boolean")]

/-- Shallow embedding of `_getCommandSchemaJson` (the `commandSchema`
value it nests into the adoption document).  `schemaVersion` and
`shortName` stand for the build-time constants `JSON_SCHEMA_VERSION` and
`FW_SHORT_NAME`. -/
def getCommandSchemaJson (schemaVersion shortName : String)
    (fwCommandSchema : Json) : Json :=
  let props0 : Json := .obj []
  let props1 := if isNull fwCommandSchema then props0 else mergeJson props0 fwCommandSchema
  let props2 := setMember props1 "restart" restartSchemaEntry
  .obj [("$schema", .str schemaVersion), ("title", .str shortName),
        ("type", .str "object"), ("properties", props2)]

/- ----------------------------------------------------------------- -/
/- Association-list lemmas                                            -/
/- ----------------------------------------------------------------- -/

theorem objLookup_objSet_self (kvs : List (String × Json)) (k : String) (v : Json) :
    objLookup (objSet kvs k v) k = some v := by
  induction kvs with
  | nil => simp [objSet, objLookup]
  | cons hd rest ih =>
      obtain ⟨k1, w⟩ := hd
      by_cases h : k1 = k
      · subst h; simp [objSet, objLookup]
      · simp [objSet, objLookup, h, ih]

theorem objLookup_objSet_ne (kvs : List (String × Json)) (k key : String) (v : Json)
    (h : k ≠ key) : objLookup (objSet kvs k v) key = objLookup kvs key := by
  induction kvs with
  | nil => simp [objSet, objLookup, h]
  | cons hd rest ih =>
      obtain ⟨k1, w⟩ := hd
      by_cases h1 : k1 = k
      · subst h1; simp [objSet, objLookup, h]
      · simp [objSet, objLookup, h1, ih]

theorem objSet_self (kvs : List (String × Json)) (k : String) (v : Json)
    (h : objLookup kvs k = some v) : objSet kvs k v = kvs := by
  induction kvs with
  | nil => simp [objLookup] at h
  | cons hd rest ih =>
      obtain ⟨k1, w⟩ := hd
      by_cases h1 : k1 = k
      · subst h1
        simp [objLookup] at h
        simp [objSet, h]
      · simp [objLookup, h1] at h
        simp [objSet, h1, ih h]

theorem objLookup_of_mem_nodup {kvs : List (String × Json)} {k : String} {v : Json}
    (hnd : noDupKeys kvs = true) (hmem : (k, v) ∈ kvs) : objLookup kvs k = some v := by
  induction kvs with
  | nil => cases hmem
  | cons hd rest ih =>
      obtain ⟨k1, w⟩ := hd
      simp only [noDupKeys, Bool.and_eq_true, Bool.not_eq_true'] at hnd
      rcases List.mem_cons.mp hmem with heq | htail
      · rw [Prod.mk.injEq] at heq
        obtain ⟨h1, h2⟩ := heq
        subst h1; subst h2
        simp [objLookup]
      · have hk : k1 ≠ k := by
          intro hke; subst hke
          have hany : rest.any (fun kv => kv.1 == k1) = true :=
            List.any_eq_true.mpr ⟨(k1, v), htail, by simp⟩
          rw [hnd.1] at hany; cases hany
        simp [objLookup, hk, ih hnd.2 htail]

/- ----------------------------------------------------------------- -/
/- Merge unfolding and shape lemmas                                   -/
/- ----------------------------------------------------------------- -/

theorem mergeMembers_nil (dst : Json) : mergeMembers dst [] = dst := rfl

theorem mergeMembers_cons (dst : Json) (k : String) (v : Json)
    (rest : List (String × Json)) :
    mergeMembers dst ((k, v) :: rest) =
      mergeMembers (setMember dst k (mergeKeyVal (getMember dst k) v)) rest := by
  cases h : truthy (getMember dst k) <;> simp [mergeMembers, mergeKeyVal, h]

theorem mergeJson_obj (dst : Json) (kvs : List (String × Json)) :
    mergeJson dst (.obj kvs) = mergeMembers dst kvs := rfl

theorem mergeJson_not_obj (dst src : Json) (h : isObj src = false) :
    mergeJson dst src = src := by
  cases src <;> first | rfl | simp [isObj] at h

theorem mergeMembers_scalar (d : Json) (hobj : isObj d = false) (hnull : d ≠ .null)
    (kvs : List (String × Json)) : mergeMembers d kvs = d := by
  induction kvs with
  | nil => rfl
  | cons hd rest ih =>
      obtain ⟨k, v⟩ := hd
      rw [mergeMembers_cons]
      have hget : getMember d k = .null := by
        cases d <;> simp_all [isObj, getMember]
      have hset : ∀ x, setMember d k x = d := by
        intro x; cases d <;> simp_all [isObj, setMember]
      rw [hget]
      have hkv : mergeKeyVal .null v = v := by simp [mergeKeyVal, truthy]
      rw [hkv, hset v]
      exact ih

theorem mergeMembers_obj (kvs : List (String × Json)) :
    ∀ dkvs : List (String × Json), ∃ rkvs, mergeMembers (.obj dkvs) kvs = .obj rkvs := by
  induction kvs with
  | nil => exact fun dkvs => ⟨dkvs, rfl⟩
  | cons hd rest ih =>
      intro dkvs
      obtain ⟨k, v⟩ := hd
      rw [mergeMembers_cons]
      simpa [setMember] using ih (objSet dkvs k (mergeKeyVal (getMember (.obj dkvs) k) v))

theorem truthy_mergeMembers (d : Json) (kvs : List (String × Json))
    (h : truthy d = true) : truthy (mergeMembers d kvs) = true := by
  cases d with
  | obj dkvs =>
      obtain ⟨rkvs, hr⟩ := mergeMembers_obj kvs dkvs
      rw [hr]; rfl
  | null => simp [truthy] at h
  | bool b =>
      rw [mergeMembers_scalar (.bool b) rfl (fun hc => Json.noConfusion hc) kvs]; exact h
  | num n =>
      rw [mergeMembers_scalar (.num n) rfl (fun hc => Json.noConfusion hc) kvs]; exact h
  | str s =>
      rw [mergeMembers_scalar (.str s) rfl (fun hc => Json.noConfusion hc) kvs]; exact h
  | arr xs =>
      rw [mergeMembers_scalar (.arr xs) rfl (fun hc => Json.noConfusion hc) kvs]; exact h

theorem jsonSizeOf_pos (j : Json) : 0 < sizeOf j := by
  cases j <;> simp_arith

theorem sizeOf_mem_members {kvs : List (String × Json)} {k : String} {v : Json}
    (h : (k, v) ∈ kvs) : sizeOf v < sizeOf (Json.obj kvs) := by
  have h1 : sizeOf (k, v) < sizeOf kvs := List.sizeOf_lt_of_mem h
  have h2 : sizeOf (Json.obj kvs) = 1 + sizeOf kvs := by simp_arith
  have h3 : sizeOf (k, v) = 1 + sizeOf k + sizeOf v := by simp_arith
  omega

theorem wfMembers_mem : ∀ {kvs : List (String × Json)} {k : String} {v : Json},
    wfMembers kvs = true → (k, v) ∈ kvs → wfJson v = true := by
  intro kvs
  induction kvs with
  | nil => intro k v _ hmem; cases hmem
  | cons hd rest ih =>
      intro k v hwf hmem
      obtain ⟨k1, w⟩ := hd
      simp only [wfMembers, Bool.and_eq_true] at hwf
      rcases List.mem_cons.mp hmem with heq | htail
      · rw [Prod.mk.injEq] at heq
        exact heq.2 ▸ hwf.1
      · exact ih hwf.2 htail

theorem wfJson_obj_parts {kvs : List (String × Json)} (h : wfJson (.obj kvs) = true) :
    noDupKeys kvs = true ∧ wfMembers kvs = true := by
  simpa only [wfJson, Bool.and_eq_true] using h

/-- After the member loop runs over `kvs`, a key untouched by `kvs` still
has its original value. -/
theorem objLookup_mergeMembers_not_mem (k : String) :
    ∀ (kvs : List (String × Json)) (dkvs : List (String × Json)),
      kvs.all (fun kv => !(kv.1 == k)) = true →
      objLookup (objList (mergeMembers (.obj dkvs) kvs)) k = objLookup dkvs k := by
  intro kvs
  induction kvs with
  | nil => intro dkvs _; rfl
  | cons hd rest ih =>
      intro dkvs hall
      obtain ⟨k1, v1⟩ := hd
      simp only [List.all_cons, Bool.and_eq_true, Bool.not_eq_true', beq_eq_false_iff_ne,
        ne_eq] at hall
      rw [mergeMembers_cons]
      have hset : setMember (.obj dkvs) k1 (mergeKeyVal (getMember (.obj dkvs) k1) v1) =
          .obj (objSet dkvs k1 (mergeKeyVal (getMember (.obj dkvs) k1) v1)) := rfl
      rw [hset, ih _ hall.2]
      exact objLookup_objSet_ne dkvs k1 k _ hall.1

/-- The value of member `k` of the merge result, when `k` carries `v` in
the (duplicate-free) source member list: the old member is recursively
merged when truthy, otherwise the source value is copied. -/
theorem objLookup_mergeMembers_mem :
    ∀ (kvs : List (String × Json)) (dst : Json) (k : String) (v : Json),
      (dst = .null ∨ isObj dst = true) →
      noDupKeys kvs = true →
      objLookup kvs k = some v →
      objLookup (objList (mergeMembers dst kvs)) k =
        some (mergeKeyVal (getMember dst k) v) := by
  intro kvs
  induction kvs with
  | nil => intro dst k v _ _ hmem; cases hmem
  | cons hd rest ih =>
      intro dst k v hdst hnd hmem
      obtain ⟨k1, v1⟩ := hd
      simp only [noDupKeys, Bool.and_eq_true, Bool.not_eq_true'] at hnd
      rw [mergeMembers_cons]
      by_cases hk : k1 = k
      · subst hk
        have hv : v1 = v := by simpa [objLookup] using hmem
        subst hv
        have hrest : rest.all (fun kv => !(kv.1 == k1)) = true := by
          have h := hnd.1
          rw [List.any_eq_false] at h
          rw [List.all_eq_true]
          intro kv hkv
          simpa using h kv hkv
        rcases hdst with hnull | hobj
        · subst hnull
          rw [show setMember .null k1 (mergeKeyVal (getMember .null k1) v1) =
                .obj [(k1, mergeKeyVal (getMember .null k1) v1)] from rfl]
          rw [objLookup_mergeMembers_not_mem k1 rest _ hrest]
          simp [objLookup]
        · cases dst with
          | obj dkvs =>
              rw [show setMember (.obj dkvs) k1 (mergeKeyVal (getMember (.obj dkvs) k1) v1) =
                    .obj (objSet dkvs k1 (mergeKeyVal (getMember (.obj dkvs) k1) v1)) from rfl]
              rw [objLookup_mergeMembers_not_mem k1 rest _ hrest]
              rw [objLookup_objSet_self]
          | _ => simp [isObj] at hobj
      · have hmem' : objLookup rest k = some v := by simpa [objLookup, hk] using hmem
        rcases hdst with hnull | hobj
        · subst hnull
          have hstep : setMember .null k1 (mergeKeyVal (getMember .null k1) v1) =
              .obj [(k1, mergeKeyVal (getMember .null k1) v1)] := rfl
          rw [hstep]
          have hget : getMember (.obj [(k1, mergeKeyVal (getMember .null k1) v1)]) k =
              getMember .null k := by simp [getMember, objLookup, hk]
          rw [ih (.obj [(k1, mergeKeyVal (getMember .null k1) v1)]) k v (Or.inr rfl)
            hnd.2 hmem', hget]
        · cases dst with
          | obj dkvs =>
              have hstep : setMember (.obj dkvs) k1 (mergeKeyVal (getMember (.obj dkvs) k1) v1) =
                  .obj (objSet dkvs k1 (mergeKeyVal (getMember (.obj dkvs) k1) v1)) := rfl
              rw [hstep]
              have hget : getMember (.obj (objSet dkvs k1 (mergeKeyVal (getMember (.obj dkvs) k1) v1))) k =
                  getMember (.obj dkvs) k := by
                simp only [getMember]
                rw [objLookup_objSet_ne dkvs k1 k _ hk]
              rw [ih (.obj (objSet dkvs k1 (mergeKeyVal (getMember (.obj dkvs) k1) v1))) k v
                (Or.inr rfl) hnd.2 hmem', hget]
          | _ => simp [isObj] at hobj

/-- If every source entry already fixes the corresponding member of the
object, the member loop leaves the object unchanged. -/
theorem mergeMembers_fix :
    ∀ (kvs : List (String × Json)) (dkvs : List (String × Json)),
      (∀ k v, (k, v) ∈ kvs → ∃ m, objLookup dkvs k = some m ∧ mergeKeyVal m v = m) →
      mergeMembers (.obj dkvs) kvs = .obj dkvs := by
  intro kvs
  induction kvs with
  | nil => intro dkvs _; rfl
  | cons hd rest ih =>
      intro dkvs h
      obtain ⟨k, v⟩ := hd
      obtain ⟨m, hlk, hfix⟩ := h k v (List.mem_cons_self _ _)
      rw [mergeMembers_cons]
      have hget : getMember (.obj dkvs) k = m := by simp [getMember, hlk]
      rw [hget, hfix]
      rw [show setMember (.obj dkvs) k m = .obj (objSet dkvs k m) from rfl]
      rw [objSet_self dkvs k m hlk]
      exact ih dkvs (fun k2 v2 hm => h k2 v2 (List.mem_cons_of_mem _ hm))

theorem mergeJson_self_aux :
    ∀ (n : Nat) (v : Json), sizeOf v ≤ n → wfJson v = true → mergeJson v v = v := by
  intro n
  induction n with
  | zero => intro v hsz _; exact absurd hsz (by have := jsonSizeOf_pos v; omega)
  | succ n ih =>
      intro v hsz hwf
      cases v with
      | obj kvs =>
          obtain ⟨hnd, hwfm⟩ := wfJson_obj_parts hwf
          rw [mergeJson_obj]
          apply mergeMembers_fix
          intro k v2 hmem
          refine ⟨v2, objLookup_of_mem_nodup hnd hmem, ?_⟩
          rw [mergeKeyVal]
          split
          · exact ih v2 (by have := sizeOf_mem_members hmem; omega)
              (wfMembers_mem hwfm hmem)
          · rfl
      | null => rfl
      | bool b => rfl
      | num m => rfl
      | str s => rfl
      | arr xs => rfl

/-- `_mergeJson` of a duplicate-free document into itself is the
identity. -/
theorem mergeJson_self (v : Json) (hwf : wfJson v = true) : mergeJson v v = v :=
  mergeJson_self_aux (sizeOf v) v le_rfl hwf

theorem mergeMembers_obj_of (dst : Json) (hdst : dst = .null ∨ isObj dst = true)
    (k : String) (v : Json) (rest : List (String × Json)) :
    ∃ rkvs, mergeMembers dst ((k, v) :: rest) = .obj rkvs := by
  rw [mergeMembers_cons]
  rcases hdst with hnull | hobj
  · subst hnull
    exact mergeMembers_obj rest [(k, mergeKeyVal (getMember .null k) v)]
  · cases dst with
    | obj dkvs =>
        exact mergeMembers_obj rest (objSet dkvs k (mergeKeyVal (getMember (.obj dkvs) k) v))
    | _ => simp [isObj] at hobj

/-- One merged member value is a fixed point of a further merge step
with the same source value. -/
theorem mergeKeyVal_fix (cur v : Json)
    (hmerge : mergeJson (mergeJson cur v) v = mergeJson cur v)
    (hself : mergeJson v v = v) :
    mergeKeyVal (mergeKeyVal cur v) v = mergeKeyVal cur v := by
  by_cases h0 : truthy cur = true
  · have hm : mergeKeyVal cur v = mergeJson cur v := by rw [mergeKeyVal, if_pos h0]
    rw [hm]
    by_cases h1 : truthy (mergeJson cur v) = true
    · rw [mergeKeyVal, if_pos h1]
      exact hmerge
    · rw [mergeKeyVal, if_neg h1]
      cases v with
      | obj kvs2 =>
          exact absurd (truthy_mergeMembers cur kvs2 h0) (by rwa [mergeJson_obj] at h1)
      | null => rfl
      | bool b => rfl
      | num m => rfl
      | str s => rfl
      | arr xs => rfl
  · have hm : mergeKeyVal cur v = v := by
      rw [mergeKeyVal, if_neg h0]
    rw [hm, mergeKeyVal]
    split
    · exact hself
    · rfl

theorem mergeJson_idem_aux :
    ∀ (n : Nat) (src dst : Json), sizeOf src ≤ n → wfJson src = true →
      mergeJson (mergeJson dst src) src = mergeJson dst src := by
  intro n
  induction n with
  | zero => intro src _ hsz _; exact absurd hsz (by have := jsonSizeOf_pos src; omega)
  | succ n ih =>
      intro src dst hsz hwf
      cases src with
      | null => rfl
      | bool b => rfl
      | num m => rfl
      | str s => rfl
      | arr xs => rfl
      | obj kvs =>
          obtain ⟨hnd, hwfm⟩ := wfJson_obj_parts hwf
          rw [mergeJson_obj, mergeJson_obj]
          cases kvs with
          | nil => rfl
          | cons hd tl =>
              obtain ⟨k0, v0⟩ := hd
              by_cases hd0 : dst = .null ∨ isObj dst = true
              · obtain ⟨rkvs, hr⟩ := mergeMembers_obj_of dst hd0 k0 v0 tl
                rw [hr]
                apply mergeMembers_fix
                intro k v hmem
                have hlk : objLookup ((k0, v0) :: tl) k = some v :=
                  objLookup_of_mem_nodup hnd hmem
                have hchar := objLookup_mergeMembers_mem ((k0, v0) :: tl) dst k v hd0 hnd hlk
                rw [hr] at hchar
                refine ⟨mergeKeyVal (getMember dst k) v, hchar, ?_⟩
                have hsv : sizeOf v ≤ n := by have := sizeOf_mem_members hmem; omega
                have hwv : wfJson v = true := wfMembers_mem hwfm hmem
                exact mergeKeyVal_fix (getMember dst k) v
                  (ih v (getMember dst k) hsv hwv) (mergeJson_self v hwv)
              · have hnull : dst ≠ .null := fun h => hd0 (Or.inl h)
                have hobj : isObj dst = false := by
                  cases h : isObj dst
                  · rfl
                  · exact absurd (Or.inr h) hd0
                rw [mergeMembers_scalar dst hobj hnull ((k0, v0) :: tl),
                  mergeMembers_scalar dst hobj hnull ((k0, v0) :: tl)]

theorem any_key_of_objLookup {kvs : List (String × Json)} {k : String} {v : Json}
    (h : objLookup kvs k = some v) : kvs.any (fun kv => kv.1 == k) = true := by
  induction kvs with
  | nil => simp [objLookup] at h
  | cons hd rest ih =>
      obtain ⟨k1, w⟩ := hd
      by_cases h1 : k1 = k
      · subst h1; simp
      · simp only [objLookup, if_neg h1] at h
        simp [List.any_cons, ih h]

/- ----------------------------------------------------------------- -/
/- Claims                                                             -/
/- ----------------------------------------------------------------- -/

/-- C1: for every stored firmware command-schema fragment (null when the
firmware registered none, otherwise a JSON object) — including one that
itself defines a property named restart — the composed command schema
contains a restart property whose type field reads the string boolean:
the platform-reserved entry is written after the firmware fragment is
merged, so the fragment can neither suppress nor shadow it. -/
theorem commandSchema_restart_reserved (schemaVersion shortName : String)
    (fwCommandSchema : Json)
    (hfw : fwCommandSchema = .null ∨ isObj fwCommandSchema = true) :
    containsKeyJ (getMember (getCommandSchemaJson schemaVersion shortName fwCommandSchema)
      "properties") "restart" = true ∧
    getMember (getMember (getMember (getCommandSchemaJson schemaVersion shortName
      fwCommandSchema) "properties") "restart") "type" = .str "boolean" := by
  have hprops : ∃ pkvs,
      (if isNull fwCommandSchema then (Json.obj [])
       else mergeJson (.obj []) fwCommandSchema) = .obj pkvs := by
    cases fwCommandSchema with
    | null => exact ⟨[], rfl⟩
    | obj kvs =>
        obtain ⟨r, hr⟩ := mergeMembers_obj kvs []
        exact ⟨r, by simpa [isNull, mergeJson_obj] using hr⟩
    | bool b =>
        rcases hfw with h | h
        · exact Json.noConfusion h
        · simp [isObj] at h
    | num m =>
        rcases hfw with h | h
        · exact Json.noConfusion h
        · simp [isObj] at h
    | str s =>
        rcases hfw with h | h
        · exact Json.noConfusion h
        · simp [isObj] at h
    | arr xs =>
        rcases hfw with h | h
        · exact Json.noConfusion h
        · simp [isObj] at h
  obtain ⟨pkvs, hp⟩ := hprops
  simp only [getCommandSchemaJson, hp]
  have h1 : getMember (Json.obj [("$schema", Json.str schemaVersion),
      ("title", Json.str shortName), ("type", Json.str "object"),
      ("properties", setMember (.obj pkvs) "restart" restartSchemaEntry)])
      "properties" = setMember (.obj pkvs) "restart" restartSchemaEntry := by
    simp [getMember, objLookup]
  rw [h1, show setMember (.obj pkvs) "restart" restartSchemaEntry =
    .obj (objSet pkvs "restart" restartSchemaEntry) from rfl]
  constructor
  · simp only [containsKeyJ]
    exact any_key_of_objLookup (objLookup_objSet_self pkvs "restart" restartSchemaEntry)
  · have h2 : getMember (.obj (objSet pkvs "restart" restartSchemaEntry)) "restart" =
        restartSchemaEntry := by
      simp [getMember, objLookup_objSet_self]
    rw [h2]
    rfl

/-- Witness for the C1 theorem at a firmware fragment that itself defines
a restart property with a non-boolean type. -/
theorem commandSchema_restart_reserved_witness :
    ((Json.obj [("restart", .obj [("type", .str "number")])]) = .null ∨
      isObj (Json.obj [("restart", .obj [("type", .str "number")])]) = true) ∧
    (containsKeyJ (getMember (getCommandSchemaJson "sv" "fw"
      (.obj [("restart", .obj [("type", .str "number")])])) "properties") "restart" = true ∧
    getMember (getMember (getMember (getCommandSchemaJson "sv" "fw"
      (.obj [("restart", .obj [("type", .str "number")])])) "properties") "restart") "type" =
      .str "boolean") :=
  ⟨Or.inr rfl, commandSchema_restart_reserved "sv" "fw" _ (Or.inr rfl)⟩

/-- C2: handling the inbound command document with restart set to true
and x set to 5 performs the restart effect first and afterwards forwards
the original document — still containing both the restart and the x
member — to the registered firmware command handler. -/
theorem command_restart_forwarding :
    mqttCommand true (.obj [("restart", .bool true), ("x", .num 5)]) =
      [.restartEffect, .forwarded (.obj [("restart", .bool true), ("x", .num 5)])] ∧
    containsKeyJ (.obj [("restart", Json.bool true), ("x", Json.num 5)]) "restart" = true ∧
    containsKeyJ (.obj [("restart", Json.bool true), ("x", Json.num 5)]) "x" = true :=
  ⟨rfl, rfl, rfl⟩

/-- C3 counterexample: with timeout 100 and a pulse stamped at 50, the
tick at time 150 has elapsed time exactly equal to the timeout, yet the
pulse is not cleared (the source clears only on strict excess) and the
reported state stays Activity instead of the steady state Connected the
claim requires for that tick. -/
theorem updateLed_timeout_boundary_counterexample :
    elapsed32 150 50 = 100 ∧
    (updateLed 100 150 true true ⟨50, ledYellow⟩).ledOnMillis = 50 ∧
    colorState (updateLed 100 150 true true ⟨50, ledYellow⟩).color = some .Activity := by
  refine ⟨by decide, by decide, by decide⟩

/-- C3 (amended): while a pulse is active, a tick with elapsed time at
most the timeout leaves the LED state unchanged, so an activity colour
keeps reporting Activity whatever the connectivity inputs; a tick with
elapsed time strictly greater than the timeout clears the pulse and
blanks the LED on that tick, and the steady state computed from the
current inputs is reported from the next tick on. -/
theorem updateLed_activity_overlay (timeout now now2 : Nat)
    (net mqtt net2 mqtt2 : Bool) (s : LedState) (hp : s.ledOnMillis ≠ 0) :
    (elapsed32 now s.ledOnMillis ≤ timeout →
      updateLed timeout now net mqtt s = s) ∧
    (elapsed32 now s.ledOnMillis > timeout →
      updateLed timeout now net mqtt s = ⟨0, ledOff⟩ ∧
      colorState (updateLed timeout now2 net2 mqtt2
        (updateLed timeout now net mqtt s)).color = some (steadyState net2 mqtt2)) := by
  constructor
  · intro hle
    simp only [updateLed, if_pos hp]
    rw [if_neg (by omega)]
  · intro hgt
    have h1 : updateLed timeout now net mqtt s = ⟨0, ledOff⟩ := by
      simp only [updateLed, if_pos hp]
      rw [if_pos hgt]
    refine ⟨h1, ?_⟩
    rw [h1]
    cases net2 <;> cases mqtt2 <;>
      simp [updateLed, steadyState, colorState, ledRed, ledBlue, ledGreen,
        ledYellow, ledOrange, ledOff]

/-- Witness for the amended C3 theorem: pulse stamped at 3, tick at 150
with timeout 100 (elapsed 147, strictly past the timeout). -/
theorem updateLed_activity_overlay_witness :
    ((⟨3, ledYellow⟩ : LedState).ledOnMillis ≠ 0) ∧
    ((elapsed32 150 (⟨3, ledYellow⟩ : LedState).ledOnMillis ≤ 100 →
        updateLed 100 150 true true ⟨3, ledYellow⟩ = ⟨3, ledYellow⟩) ∧
     (elapsed32 150 (⟨3, ledYellow⟩ : LedState).ledOnMillis > 100 →
        updateLed 100 150 true true ⟨3, ledYellow⟩ = ⟨0, ledOff⟩ ∧
        colorState (updateLed 100 7 false true
          (updateLed 100 150 true true ⟨3, ledYellow⟩)).color =
          some (steadyState false true))) :=
  ⟨by decide,
    updateLed_activity_overlay 100 150 7 true true false true ⟨3, ledYellow⟩ (by decide)⟩

/-- C4 counterexample: the destination has the falsy value false at key
k and the source value at k is an object, yet the merge does not
recurse — the source object replaces the member wholesale — while the
recursive merge of false with that object the claim requires would
leave false unchanged. -/
theorem merge_recursion_condition_counterexample :
    objLookup [("k", Json.bool false)] "k" = some (.bool false) ∧
    isObj (.obj [("a", Json.num 1)]) = true ∧
    getMember (mergeJson (.obj [("k", .bool false)]) (.obj [("k", .obj [("a", .num 1)])]))
      "k" = .obj [("a", .num 1)] ∧
    mergeJson (getMember (.obj [("k", .bool false)]) "k") (.obj [("a", .num 1)]) =
      .bool false ∧
    Json.obj [("a", Json.num 1)] ≠ Json.bool false := by
  refine ⟨rfl, rfl, rfl, rfl, fun h => Json.noConfusion h⟩

/-- C4 (amended): for object documents dst and src with duplicate-free
source keys, where src carries value v at key k: the merged member at k
is the recursive merge of the old member with v exactly when the old
member dst[k] is truthy (present and none of null, false, 0) and v is
an object; in every other case — scalar or array source value, key
absent from dst, or a falsy existing member — the result at k is
exactly v. -/
theorem merge_member_spec (dkvs skvs : List (String × Json)) (k : String) (v : Json)
    (hnd : noDupKeys skvs = true) (hmem : objLookup skvs k = some v) :
    getMember (mergeJson (.obj dkvs) (.obj skvs)) k =
      (if truthy (getMember (.obj dkvs) k) = true ∧ isObj v = true
       then mergeJson (getMember (.obj dkvs) k) v
       else v) := by
  have hchar := objLookup_mergeMembers_mem skvs (.obj dkvs) k v (Or.inr rfl) hnd hmem
  rw [mergeJson_obj]
  obtain ⟨rkvs, hr⟩ := mergeMembers_obj skvs dkvs
  rw [hr] at hchar ⊢
  have hgm : getMember (.obj rkvs) k = mergeKeyVal (getMember (.obj dkvs) k) v := by
    simp only [objList] at hchar
    simp [getMember, hchar]
  rw [hgm, mergeKeyVal]
  by_cases h0 : truthy (getMember (.obj dkvs) k) = true
  · by_cases h1 : isObj v = true
    · rw [if_pos h0, if_pos ⟨h0, h1⟩]
    · rw [if_pos h0, if_neg (fun hc => h1 hc.2),
        mergeJson_not_obj _ v (Bool.eq_false_iff.mpr h1)]
  · rw [if_neg h0, if_neg (fun hc => h0 hc.1)]

/-- Witness for the amended C4 theorem: a truthy object member merged
with an object source value. -/
theorem merge_member_spec_witness :
    noDupKeys [("k", Json.obj [("a", Json.num 2)])] = true ∧
    objLookup [("k", Json.obj [("a", Json.num 2)])] "k" =
      some (.obj [("a", .num 2)]) ∧
    getMember (mergeJson (.obj [("k", Json.obj [("a", Json.num 1)])])
        (.obj [("k", Json.obj [("a", Json.num 2)])])) "k" =
      (if truthy (getMember (.obj [("k", Json.obj [("a", Json.num 1)])]) "k") = true ∧
          isObj (Json.obj [("a", Json.num 2)]) = true
       then mergeJson (getMember (.obj [("k", Json.obj [("a", Json.num 1)])]) "k")
          (.obj [("a", .num 2)])
       else .obj [("a", .num 2)]) :=
  ⟨rfl, rfl, merge_member_spec _ _ "k" _ rfl rfl⟩

/-- C5: merging the same well-formed source document (unique member keys
at every level, as the data model prescribes for documents) into any
destination a second time leaves the result unchanged. -/
theorem merge_idempotent (dst src : Json) (hwf : wfJson src = true) :
    mergeJson (mergeJson dst src) src = mergeJson dst src :=
  mergeJson_idem_aux (sizeOf src) src dst le_rfl hwf

/-- Witness for the C5 theorem on a two-member source document merged
into a destination holding a falsy member. -/
theorem merge_idempotent_witness :
    wfJson (.obj [("k", Json.obj [("a", Json.num 2)]), ("m", Json.num 3)]) = true ∧
    mergeJson (mergeJson (.obj [("k", Json.bool false)])
        (.obj [("k", Json.obj [("a", Json.num 2)]), ("m", Json.num 3)]))
      (.obj [("k", Json.obj [("a", Json.num 2)]), ("m", Json.num 3)]) =
    mergeJson (.obj [("k", Json.bool false)])
      (.obj [("k", Json.obj [("a", Json.num 2)]), ("m", Json.num 3)]) :=
  ⟨rfl, merge_idempotent _ _ rfl⟩

/-- C6: on a tick with no active activity pulse the reported state is a
total function of the two connectivity booleans — network down gives
NoNetwork whatever the bus state, network up without bus gives
NetworkNoBus, and both up give Connected. -/
theorem updateLed_steady_states (timeout now : Nat) (net mqtt : Bool)
    (s : LedState) (h : s.ledOnMillis = 0) :
    colorState (updateLed timeout now net mqtt s).color = some (steadyState net mqtt) := by
  cases net <;> cases mqtt <;>
    simp [updateLed, h, steadyState, colorState, ledRed, ledBlue, ledGreen,
      ledYellow, ledOrange]

/-- Witness for the C6 theorem with no pulse, network up and bus down. -/
theorem updateLed_steady_states_witness :
    (⟨0, ledOff⟩ : LedState).ledOnMillis = 0 ∧
    colorState (updateLed 100 5 true false ⟨0, ledOff⟩).color =
      some (steadyState true false) :=
  ⟨rfl, updateLed_steady_states 100 5 true false ⟨0, ledOff⟩ rfl⟩

/-- C7: publishStatus and publishTelemetry return false and leave the
LED state untouched when the network is down (the publish never runs),
and in every case the outbound activity pulse (the ledTx state) appears
exactly when the network was up and the underlying publish reported
success. -/
theorem publish_gating (net pub : Bool) (now : Nat) (s : LedState) :
    publishStatus net pub now s = (net && pub, if net && pub then ledTx now s else s) ∧
    publishTelemetry net pub now s = (net && pub, if net && pub then ledTx now s else s) := by
  cases net <;> cases pub <;> simp [publishStatus, publishTelemetry]

/-- C8: handling an inbound config document updates the platform
reserved state from exactly the reserved keys present and then forwards
the original document unmodified when a firmware handler is registered;
with no handler the forwarding is a no-op (none), not an error.  The
hypothesis keeps the document outside the undefined C strcpy region: a
present topic-prefix value must be a JSON string. -/
theorem config_reserved_and_forwarding (st : PlatformState) (hasHandler : Bool)
    (doc : Json)
    (hstr : containsKeyJ doc "hassDiscoveryTopicPrefix" = true →
      isStr (getMember doc "hassDiscoveryTopicPrefix") = true) :
    (mqttConfig st hasHandler doc).2 = (if hasHandler then some doc else none) ∧
    (mqttConfig st hasHandler doc).1 =
      ⟨(if containsKeyJ doc "hassDiscoveryEnabled"
        then truthy (getMember doc "hassDiscoveryEnabled")
        else st.hassDiscoveryEnabled),
       (if containsKeyJ doc "hassDiscoveryTopicPrefix"
        then jsonAsCStr (getMember doc "hassDiscoveryTopicPrefix")
        else st.hassDiscoveryTopic)⟩ := by
  constructor
  · rfl
  · simp only [mqttConfig]
    by_cases h1 : containsKeyJ doc "hassDiscoveryEnabled" = true <;>
      by_cases h2 : containsKeyJ doc "hassDiscoveryTopicPrefix" = true <;>
        simp [h1, h2]

/-- Witness for the C8 theorem on a document carrying both reserved keys
(with a string topic prefix) next to a firmware key. -/
theorem config_reserved_and_forwarding_witness :
    (containsKeyJ (.obj [("hassDiscoveryEnabled", Json.bool true),
        ("hassDiscoveryTopicPrefix", Json.str "ha"), ("x", Json.num 1)])
        "hassDiscoveryTopicPrefix" = true →
      isStr (getMember (.obj [("hassDiscoveryEnabled", Json.bool true),
        ("hassDiscoveryTopicPrefix", Json.str "ha"), ("x", Json.num 1)])
        "hassDiscoveryTopicPrefix") = true) ∧
    ((mqttConfig ⟨false, "homeassistant"⟩ true (.obj [("hassDiscoveryEnabled", Json.bool true),
        ("hassDiscoveryTopicPrefix", Json.str "ha"), ("x", Json.num 1)])).2 =
      (if true then some (Json.obj [("hassDiscoveryEnabled", Json.bool true),
        ("hassDiscoveryTopicPrefix", Json.str "ha"), ("x", Json.num 1)]) else none) ∧
    (mqttConfig ⟨false, "homeassistant"⟩ true (.obj [("hassDiscoveryEnabled", Json.bool true),
        ("hassDiscoveryTopicPrefix", Json.str "ha"), ("x", Json.num 1)])).1 =
      ⟨(if containsKeyJ (.obj [("hassDiscoveryEnabled", Json.bool true),
          ("hassDiscoveryTopicPrefix", Json.str "ha"), ("x", Json.num 1)])
          "hassDiscoveryEnabled"
        then truthy (getMember (.obj [("hassDiscoveryEnabled", Json.bool true),
          ("hassDiscoveryTopicPrefix", Json.str "ha"), ("x", Json.num 1)])
          "hassDiscoveryEnabled")
        else false),
       (if containsKeyJ (.obj [("hassDiscoveryEnabled", Json.bool true),
          ("hassDiscoveryTopicPrefix", Json.str "ha"), ("x", Json.num 1)])
          "hassDiscoveryTopicPrefix"
        then jsonAsCStr (getMember (.obj [("hassDiscoveryEnabled", Json.bool true),
          ("hassDiscoveryTopicPrefix", Json.str "ha"), ("x", Json.num 1)])
          "hassDiscoveryTopicPrefix")
        else "homeassistant")⟩) :=
  ⟨fun _ => rfl,
    config_reserved_and_forwarding ⟨false, "homeassistant"⟩ true _ (fun _ => rfl)⟩

/-- C9: the inbound activity pulse fires before the payload is
classified: whatever the external receive call returns for the payload
(including the zero-length and deserialisation-error codes, on which no
handler runs), the LED state after the callback is exactly the ledRx
pulse state and carries the Activity colour. -/
theorem callback_pulse_before_classify (receive : List Nat → ReceiveStatus)
    (payload : List Nat) (now : Nat) (s : LedState) :
    (mqttCallback receive payload now s).1 = ledRx now s ∧
    colorState (mqttCallback receive payload now s).1.color = some .Activity :=
  ⟨rfl, rfl⟩

/-- C10: a pulse triggered when the millisecond clock reads exactly 0 is
not recorded — the stamp 0 is the encoding for no active pulse — so the
next tick evaluates and reports the steady state instead of Activity. -/
theorem ledRx_at_zero_not_recorded (s : LedState) (timeout now2 : Nat)
    (net mqtt : Bool) :
    (ledRx 0 s).ledOnMillis = 0 ∧
    colorState (updateLed timeout now2 net mqtt (ledRx 0 s)).color =
      some (steadyState net mqtt) := by
  refine ⟨rfl, ?_⟩
  cases net <;> cases mqtt <;>
    simp [ledRx, updateLed, steadyState, colorState, ledRed, ledBlue, ledGreen,
      ledYellow, ledOrange]
